import Mathlib

/-!
Shallow embedding of the leaderboard server (Express + Mongoose backend).

The embedding models the two persisted collections (Players, Applications)
as lists carried in a `Store`, and each HTTP handler as a pure function
from its request data and the store to an HTTP status code and the new
store.  Mongo document ids are modelled as naturals handed out by a
`nextId` counter; `Date.now` values appear as explicit `now : Nat`
arguments.  JavaScript numbers holding win amounts are modelled as `Int`
(the code never constrains their sign).
-/

namespace Leaderboard

/-- Status values stored on an application document: the application
schema (appended to src/package.json) declares the enum
pending/approved/rejected with default pending. -/
inductive AppStatus where
  | pending
  | approved
  | rejected
deriving DecidableEq, Repr

/-- Parse a request status string exactly as the membership check
`['pending', 'approved', 'rejected'].includes(status)` classifies it. -/
def AppStatus.ofString? : String → Option AppStatus
  | "pending" => some .pending
  | "approved" => some .approved
  | "rejected" => some .rejected
  | _ => none

/-- A Player document (server/models/Player.ts). -/
structure Player where
  id : Nat
  name : String
  totalWin : Int
  avatar : String
  createdAt : Nat
deriving DecidableEq, Repr

/-- An Application document, following the applicationSchema appended to
src/package.json: the five required trimmed strings, the claimed amount,
the optional proof URL defaulting to the empty string, the status enum
defaulting to pending, and the creation timestamp. -/
structure Application where
  id : Nat
  name : String
  email : String
  phoneNumber : String
  nickname : String
  accountName : String
  totalWin : Int
  proofUrl : String
  status : AppStatus
  createdAt : Nat
deriving DecidableEq, Repr

/-- The persisted state: the two collections plus the id counter. -/
structure Store where
  players : List Player
  applications : List Application
  nextId : Nat
deriving DecidableEq, Repr

/-- The avatar default used both by the player schema and by the
promotion handler: the dicebear URL seeded with the name. -/
def defaultAvatar (name : String) : String :=
  "https://api.dicebear.com/6.x/personas/svg?seed=" ++ name

/-- Apply `f` to the first element satisfying `p`, leaving the rest
unchanged.  This models a Mongoose `findByIdAndUpdate`, or a `findOne`
followed by `save()`, on a collection: exactly one matched document is
written. -/
def updateFirst (p : α → Bool) (f : α → α) : List α → List α
  | [] => []
  | x :: xs => if p x then f x :: xs else x :: updateFirst p f xs

/-- Remove the first element satisfying `p` (models `findByIdAndDelete`). -/
def removeFirst (p : α → Bool) : List α → List α
  | [] => []
  | x :: xs => if p x then xs else x :: removeFirst p xs

/-- PATCH /api/applications/:id handler body (after the auth gate):
validate the status string, write it onto the application, and on
approval reconcile the player collection (update the matched player only
when the claimed amount is strictly greater, otherwise create a new
player with the default avatar). -/
def reviewApplication (s : Store) (now : Nat) (aid : Nat) (decision : String) :
    Nat × Store :=
  match AppStatus.ofString? decision with
  | none => (400, s)
  | some st =>
    match s.applications.find? (fun x => x.id == aid) with
    | none => (404, s)
    | some a0 =>
      let application : Application := { a0 with status := st }
      let apps1 : List Application :=
        updateFirst (fun x => x.id == aid) (fun x => { x with status := st })
          s.applications
      let s1 : Store := { s with applications := apps1 }
      if st = .approved then
        match s1.players.find? (fun p => p.name == application.nickname) with
        | some existingPlayer =>
          if application.totalWin > existingPlayer.totalWin then
            let ps1 : List Player :=
              updateFirst (fun p => p.name == application.nickname)
                (fun p => { p with totalWin := application.totalWin })
                s1.players
            (200, { s1 with players := ps1 })
          else
            (200, s1)
        | none =>
          let newPlayer : Player :=
            { id := s1.nextId, name := application.nickname,
              totalWin := application.totalWin,
              avatar := defaultAvatar application.nickname, createdAt := now }
          (200, { s1 with players := s1.players ++ [newPlayer],
                          nextId := s1.nextId + 1 })
      else
        (200, s1)

/-- Drop the first occurrence of `pat` inside `s`, as the JavaScript
string `replace` with a plain-string pattern does (first match only). -/
def dropFirstOccur (pat : List Char) : List Char → List Char
  | [] => []
  | c :: rest =>
    if pat.isPrefixOf (c :: rest) then (c :: rest).drop pat.length
    else c :: dropFirstOccur pat rest

/-- The auth middleware: take the Authorization header, strip the first
occurrence of the text Bearer-space, fail on an absent header or empty
token, then verify the token.  `verify` abstracts `jwt.verify` with the
configured secret: it yields the username carried by a valid token and
`none` when verification throws. -/
def authenticate (verify : String → Option String) (header : Option String) :
    Option String :=
  match header with
  | none => none
  | some hdr =>
    let token : String := ⟨dropFirstOccur "Bearer ".toList hdr.toList⟩
    if token.isEmpty then none else verify token

/-- Descending insertion of a player into a list sorted by totalWin. -/
def insertWinDesc (p : Player) : List Player → List Player
  | [] => [p]
  | q :: qs =>
    if q.totalWin ≤ p.totalWin then p :: q :: qs else q :: insertWinDesc p qs

/-- The Mongo query modifier sort totalWin minus-one: order players by
totalWin descending. -/
def sortByWinDesc : List Player → List Player
  | [] => []
  | p :: ps => insertWinDesc p (sortByWinDesc ps)

/-- Case-insensitive prefix test on character lists. -/
def isPrefixCI : List Char → List Char → Bool
  | [], _ => true
  | _ :: _, [] => false
  | c :: cs, d :: ds => (c.toLower == d.toLower) && isPrefixCI cs ds

/-- Case-insensitive substring containment: `pat` occurs inside `hay`. -/
def containsSubCI (pat : List Char) (hay : List Char) : Bool :=
  match hay with
  | [] => isPrefixCI pat []
  | _ :: rest => isPrefixCI pat hay || containsSubCI pat rest

/-- A token of the regex fragment the search endpoint can receive: a
literal character, or the dot wildcard.  The search handler hands the
raw query to the Mongo regex operator; this models the fragment of that
regex language with no operators beyond the dot. -/
inductive RTok where
  | dot
  | lit (c : Char)
deriving DecidableEq, Repr

/-- Read a query string as a regex of the modelled fragment: the dot is
a wildcard, every other character stands for itself. -/
def parseTokens (q : List Char) : List RTok :=
  q.map (fun c => if c = '.' then RTok.dot else RTok.lit c)

/-- One regex token against one subject character, case-insensitively
(the handler passes the i regex option). -/
def tokMatch : RTok → Char → Bool
  | .dot, _ => true
  | .lit c, d => c.toLower == d.toLower

/-- Match a token list against a prefix of the subject. -/
def matchHere : List RTok → List Char → Bool
  | [], _ => true
  | _ :: _, [] => false
  | t :: ts, c :: cs => tokMatch t c && matchHere ts cs

/-- Unanchored regex match, as the Mongo regex operator performs it:
the pattern may match starting at any position of the subject. -/
def matchAnywhere (ts : List RTok) : List Char → Bool
  | [] => matchHere ts []
  | c :: rest => matchHere ts (c :: rest) || matchAnywhere ts rest

/-- GET /api/players/search: filter by the query interpreted as a
case-insensitive regex, then sort by totalWin descending.  The header
argument records that the route is registered without the auth gate. -/
def handleSearchPlayers (_header : Option String) (q : String) (s : Store) :
    Nat × List Player :=
  (200, sortByWinDesc
    (s.players.filter (fun p => matchAnywhere (parseTokens q.toList) p.name.toList)))

/-- GET /api/players: everyone, sorted by totalWin descending; public. -/
def handleGetPlayers (_header : Option String) (s : Store) : Nat × List Player :=
  (200, sortByWinDesc s.players)

/-- GET /api/players/weekly: players created at or after the start of
the current Sunday-aligned week, sorted by totalWin descending; the
cutoff stands for the start-of-week timestamp the handler computes. -/
def handleGetPlayersWeekly (_header : Option String) (cutoff : Nat) (s : Store) :
    Nat × List Player :=
  (200, sortByWinDesc (s.players.filter (fun p => cutoff ≤ p.createdAt)))

/-- GET /api/players/monthly: players created at or after the first of
the current month, sorted by totalWin descending; public. -/
def handleGetPlayersMonthly (_header : Option String) (cutoff : Nat) (s : Store) :
    Nat × List Player :=
  (200, sortByWinDesc (s.players.filter (fun p => cutoff ≤ p.createdAt)))

/-- GET /api/players/top: the JavaScript expression Number of limit or
else ten maps an absent or zero limit to ten. -/
def effectiveLimit : Option Nat → Nat
  | none => 10
  | some n => if n = 0 then 10 else n

/-- GET /api/players/top?limit=N: first N players by totalWin; public. -/
def handleGetPlayersTop (_header : Option String) (limit : Option Nat) (s : Store) :
    Nat × List Player :=
  (200, (sortByWinDesc s.players).take (effectiveLimit limit))

/-- POST /api/players (auth): store the supplied name and totalWin as a
new player; the schema supplies the dicebear avatar default.  No
validation of the totalWin value occurs. -/
def handlePostPlayers (verify : String → Option String) (header : Option String)
    (name : String) (totalWin : Int) (now : Nat) (s : Store) : Nat × Store :=
  match authenticate verify header with
  | none => (401, s)
  | some _ =>
    let p : Player :=
      { id := s.nextId, name := name, totalWin := totalWin,
        avatar := defaultAvatar name, createdAt := now }
    (201, { s with players := s.players ++ [p], nextId := s.nextId + 1 })

/-- PATCH /api/players/:id (auth): overwrite totalWin on the matched
player, 404 when the id matches no player.  No validation of the value. -/
def handlePatchPlayer (verify : String → Option String) (header : Option String)
    (pid : Nat) (totalWin : Int) (s : Store) : Nat × Store :=
  match authenticate verify header with
  | none => (401, s)
  | some _ =>
    match s.players.find? (fun p => p.id == pid) with
    | none => (404, s)
    | some _ =>
      let ps : List Player :=
        updateFirst (fun p => p.id == pid)
          (fun p => { p with totalWin := totalWin }) s.players
      (200, { s with players := ps })

/-- DELETE /api/players/:id (auth): remove the matched player, 404 when
absent. -/
def handleDeletePlayer (verify : String → Option String) (header : Option String)
    (pid : Nat) (s : Store) : Nat × Store :=
  match authenticate verify header with
  | none => (401, s)
  | some _ =>
    match s.players.find? (fun p => p.id == pid) with
    | none => (404, s)
    | some _ => (204, { s with players := removeFirst (fun p => p.id == pid) s.players })

/-- GET /api/applications (auth): read-only listing, sorted by creation
time descending; the store is untouched. -/
def handleGetApplications (verify : String → Option String) (header : Option String)
    (s : Store) : Nat × Store :=
  match authenticate verify header with
  | none => (401, s)
  | some _ => (200, s)

/-- PATCH /api/applications/:id with the auth gate in front of the
review logic. -/
def handlePatchApplication (verify : String → Option String) (header : Option String)
    (now : Nat) (aid : Nat) (decision : String) (s : Store) : Nat × Store :=
  match authenticate verify header with
  | none => (401, s)
  | some _ => reviewApplication s now aid decision

/-- The request body of POST /api/applications: destructured fields may
each be absent. -/
structure ApplicationBody where
  name : Option String
  email : Option String
  phoneNumber : Option String
  nickname : Option String
  accountName : Option String
  totalWin : Option Int
  proofUrl : Option String
deriving DecidableEq, Repr

/-- JavaScript truthiness of a possibly-absent string: an absent field
and the empty string are falsy. -/
def truthyStr : Option String → Bool
  | none => false
  | some s => !s.isEmpty

/-- JavaScript truthiness of a possibly-absent number: an absent field
and zero are falsy. -/
def truthyInt : Option Int → Bool
  | none => false
  | some n => n != 0

/-- The validation test of POST /api/applications: the negated
disjunction of the six falsiness checks. -/
def requiredPresent (b : ApplicationBody) : Bool :=
  truthyStr b.name && truthyStr b.email && truthyStr b.phoneNumber &&
    truthyStr b.nickname && truthyStr b.accountName && truthyInt b.totalWin

/-- Drop leading whitespace characters. -/
def dropLeadingWs : List Char → List Char
  | [] => []
  | c :: cs => if c.isWhitespace then dropLeadingWs cs else c :: cs

/-- The trim setter of the schema string fields: drop leading and
trailing whitespace, as the JavaScript string trim does. -/
def trimStr (s : String) : String :=
  ⟨(dropLeadingWs ((dropLeadingWs s.toList).reverse)).reverse⟩

/-- The application document the submission handler builds before
`save()`: the schema setters trim every string field, proofUrl is
defaulted to the empty string and the status to pending. -/
def mkSubmittedApplication (b : ApplicationBody) (aid now : Nat) : Application :=
  { id := aid, name := trimStr (b.name.getD ""),
    email := trimStr (b.email.getD ""),
    phoneNumber := trimStr (b.phoneNumber.getD ""),
    nickname := trimStr (b.nickname.getD ""),
    accountName := trimStr (b.accountName.getD ""),
    totalWin := b.totalWin.getD 0,
    proofUrl := trimStr (b.proofUrl.getD ""), status := .pending,
    createdAt := now }

/-- The save-time validation of the applicationSchema in
src/package.json, run on the trimmed document: every required string is
nonempty (required rejects the empty string) and the claimed amount
respects min zero. -/
def applicationSchemaValid (a : Application) : Bool :=
  !a.name.isEmpty && !a.email.isEmpty && !a.phoneNumber.isEmpty &&
    !a.nickname.isEmpty && !a.accountName.isEmpty && decide (0 ≤ a.totalWin)

/-- POST /api/applications (public): reject with 400 when the handler's
truthiness validation fails; otherwise build the document and `save()`
it, which runs the schema validation of src/package.json — a failure
there throws and is answered with 400 by the catch block; on success
store the application with 201. -/
def handlePostApplications (_header : Option String) (b : ApplicationBody)
    (now : Nat) (s : Store) : Nat × Store :=
  if requiredPresent b then
    let a : Application := mkSubmittedApplication b s.nextId now
    if applicationSchemaValid a then
      (201, { s with applications := s.applications ++ [a],
                     nextId := s.nextId + 1 })
    else
      (400, s)
  else
    (400, s)

/-- The five fixed sample players of the test route. -/
def sampleData : List (String × Int) :=
  [("Champion123", 50000000), ("LuckyWinner", 35000000),
   ("GoldHunter", 25000000), ("FortuneMaster", 20000000),
   ("LuckyDragon", 15000000)]

/-- Build one sample player with the dicebear avatar. -/
def mkSamplePlayer (pid : Nat) (now : Nat) : String × Int → Player
  | (nm, w) =>
    { id := pid, name := nm, totalWin := w, avatar := defaultAvatar nm,
      createdAt := now }

/-- POST /api/test/create-sample-players: registered with no auth gate,
it clears every player and stores the five fixed samples.  The header
argument records that the request needs no Authorization header. -/
def handleCreateSamplePlayers (_header : Option String) (now : Nat) (s : Store) :
    Nat × Store :=
  let fresh : List Player :=
    (sampleData.enum).map (fun pr => mkSamplePlayer (s.nextId + pr.1) now pr.2)
  (201, { s with players := fresh, nextId := s.nextId + sampleData.length })

/-- The player the promotion workflow creates when no player carries the
nickname of the approved application. -/
def promotedPlayer (s : Store) (now : Nat) (a : Application) : Player :=
  { id := s.nextId, name := a.nickname, totalWin := a.totalWin,
    avatar := defaultAvatar a.nickname, createdAt := now }

/-- The search the specification text describes, for comparison with the
implemented handler: a case-insensitive literal-substring filter on the
name, ordered by totalWin descending. -/
def specLiteralSearch (s : Store) (q : String) : List Player :=
  sortByWinDesc (s.players.filter (fun p => containsSubCI q.toList p.name.toList))

/-! ### Generic list facts used by the frame and merge proofs -/

theorem find?_eq_some_decomp (p : α → Bool) (l : List α) (a : α)
    (h : l.find? p = some a) :
    ∃ l1 l2, l = l1 ++ a :: l2 ∧ (∀ x ∈ l1, p x = false) ∧ p a = true := by
  induction l with
  | nil => simp [List.find?] at h
  | cons x xs ih =>
    cases hpx : p x with
    | true =>
      rw [List.find?_cons_of_pos _ hpx] at h
      obtain rfl : x = a := by injection h
      exact ⟨[], xs, rfl, by simp, hpx⟩
    | false =>
      rw [List.find?_cons_of_neg _ (by simp [hpx])] at h
      obtain ⟨l1, l2, hl, h1, ha⟩ := ih h
      exact ⟨x :: l1, l2, by simp [hl], by simpa [hpx] using h1, ha⟩

theorem find?_append_left_none (p : α → Bool) {l1 : List α} (l2 : List α)
    (h : ∀ x ∈ l1, p x = false) : (l1 ++ l2).find? p = l2.find? p := by
  induction l1 with
  | nil => simp
  | cons x xs ih =>
    have hx : p x = false := h x (by simp)
    simp only [List.cons_append]
    rw [List.find?_cons_of_neg _ (by simp [hx])]
    exact ih (fun y hy => h y (by simp [hy]))

theorem updateFirst_append (p : α → Bool) (f : α → α) (l1 l2 : List α) (a : α)
    (h1 : ∀ x ∈ l1, p x = false) (ha : p a = true) :
    updateFirst p f (l1 ++ a :: l2) = l1 ++ f a :: l2 := by
  induction l1 with
  | nil => simp [updateFirst, ha]
  | cons x xs ih =>
    have hx : p x = false := h1 x (by simp)
    simp only [List.cons_append, updateFirst, hx]
    simp [ih (fun y hy => h1 y (by simp [hy]))]

theorem updateFirst_eq_self (p : α → Bool) (f : α → α) (l : List α) (a : α)
    (h : l.find? p = some a) (hfa : f a = a) : updateFirst p f l = l := by
  obtain ⟨l1, l2, rfl, h1, ha⟩ := find?_eq_some_decomp p l a h
  rw [updateFirst_append p f l1 l2 a h1 ha, hfa]

theorem find?_updateFirst (p : α → Bool) (f : α → α) (l : List α) (a : α)
    (h : l.find? p = some a) (hfa : p (f a) = true) :
    (updateFirst p f l).find? p = some (f a) := by
  obtain ⟨l1, l2, rfl, h1, ha⟩ := find?_eq_some_decomp p l a h
  rw [updateFirst_append p f l1 l2 a h1 ha, find?_append_left_none p _ h1,
    List.find?_cons_of_pos _ hfa]

theorem length_updateFirst (p : α → Bool) (f : α → α) (l : List α) :
    (updateFirst p f l).length = l.length := by
  induction l with
  | nil => rfl
  | cons x xs ih =>
    by_cases hx : p x <;> simp [updateFirst, hx, ih]

theorem updateFirst_getElem?_of_neg (p : α → Bool) (f : α → α) (l : List α)
    (i : Nat) (x : α) (hx : l[i]? = some x) (hpx : p x = false) :
    (updateFirst p f l)[i]? = some x := by
  induction l generalizing i with
  | nil => simp at hx
  | cons y ys ih =>
    cases hy : p y with
    | true =>
      cases i with
      | zero =>
        rw [List.getElem?_cons_zero] at hx
        obtain rfl : y = x := by injection hx
        rw [hy] at hpx; cases hpx
      | succ n =>
        simp only [updateFirst, hy, if_true, List.getElem?_cons_succ]
        simpa using hx
    | false =>
      cases i with
      | zero =>
        rw [List.getElem?_cons_zero] at hx
        simp only [updateFirst, hy, if_false, Bool.false_eq_true,
          List.getElem?_cons_zero]
        exact hx
      | succ n =>
        simp only [updateFirst, hy, if_false, Bool.false_eq_true,
          List.getElem?_cons_succ]
        exact ih n (by simpa using hx)

theorem getElem?_append_of_some (l l2 : List α) (i : Nat) (x : α)
    (h : l[i]? = some x) : (l ++ l2)[i]? = some x := by
  induction l generalizing i with
  | nil => simp at h
  | cons y ys ih =>
    cases i with
    | zero => simpa using h
    | succ n =>
      simp only [List.cons_append, List.getElem?_cons_succ] at h ⊢
      exact ih n h

/-! ### The descending sort: permutation and order -/

theorem insertWinDesc_perm (p : Player) (l : List Player) :
    List.Perm (insertWinDesc p l) (p :: l) := by
  induction l with
  | nil => exact List.Perm.refl _
  | cons q qs ih =>
    by_cases hq : q.totalWin ≤ p.totalWin
    · simp [insertWinDesc, hq]
    · simp only [insertWinDesc, hq, if_false]
      exact (ih.cons q).trans (List.Perm.swap p q qs)

theorem sortByWinDesc_perm (l : List Player) :
    List.Perm (sortByWinDesc l) l := by
  induction l with
  | nil => exact List.Perm.refl _
  | cons p ps ih => exact (insertWinDesc_perm p _).trans (ih.cons p)

theorem pairwise_insertWinDesc (p : Player) (l : List Player)
    (hl : List.Pairwise (fun x y => y.totalWin ≤ x.totalWin) l) :
    List.Pairwise (fun x y => y.totalWin ≤ x.totalWin) (insertWinDesc p l) := by
  induction l with
  | nil => simp [insertWinDesc]
  | cons q qs ih =>
    rw [List.pairwise_cons] at hl
    obtain ⟨hq, hqs⟩ := hl
    by_cases h : q.totalWin ≤ p.totalWin
    · simp only [insertWinDesc, h, if_true]
      rw [List.pairwise_cons]
      refine ⟨?_, List.pairwise_cons.mpr ⟨hq, hqs⟩⟩
      intro b hb
      rcases List.mem_cons.mp hb with rfl | hb
      · exact h
      · exact le_trans (hq b hb) h
    · simp only [insertWinDesc, h, if_false]
      rw [List.pairwise_cons]
      refine ⟨?_, ih hqs⟩
      intro b hb
      rcases List.mem_cons.mp ((insertWinDesc_perm p qs).mem_iff.mp hb) with rfl | hb2
      · exact le_of_not_le h
      · exact hq b hb2

theorem pairwise_sortByWinDesc (l : List Player) :
    List.Pairwise (fun x y => y.totalWin ≤ x.totalWin) (sortByWinDesc l) := by
  induction l with
  | nil => simp [sortByWinDesc]
  | cons p ps ih => exact pairwise_insertWinDesc p _ ih

/-! ### The regex fragment against literal substring containment -/

theorem parseTokens_cons_of_ne (c : Char) (qs : List Char) (hc : c ≠ '.') :
    parseTokens (c :: qs) = RTok.lit c :: parseTokens qs := by
  simp [parseTokens, hc]

theorem matchHere_of_no_dot (qs cs : List Char) (hq : ∀ c ∈ qs, c ≠ '.') :
    matchHere (parseTokens qs) cs = isPrefixCI qs cs := by
  induction qs generalizing cs with
  | nil => cases cs <;> rfl
  | cons c qs ih =>
    have hc : c ≠ '.' := hq c (by simp)
    rw [parseTokens_cons_of_ne c qs hc]
    cases cs with
    | nil => rfl
    | cons d ds =>
      simp only [matchHere, tokMatch, isPrefixCI]
      rw [ih ds (fun x hx => hq x (List.mem_cons_of_mem _ hx))]

theorem matchAnywhere_of_no_dot (qs cs : List Char) (hq : ∀ c ∈ qs, c ≠ '.') :
    matchAnywhere (parseTokens qs) cs = containsSubCI qs cs := by
  induction cs with
  | nil =>
    simp only [matchAnywhere, containsSubCI]
    exact matchHere_of_no_dot qs [] hq
  | cons d ds ih =>
    simp only [matchAnywhere, containsSubCI]
    rw [matchHere_of_no_dot qs (d :: ds) hq, ih]

theorem alphanum_ne_dot (c : Char) (h : c.isAlphanum = true) : c ≠ '.' := by
  intro hc
  rw [hc] at h
  exact absurd h (by decide)

/-! ### Characterization of an approval run of the review workflow -/

theorem review_approved_cases (s : Store) (now aid : Nat) (a : Application)
    (hfind : s.applications.find? (fun x => x.id == aid) = some a) :
    (reviewApplication s now aid "approved").1 = 200 ∧
    (reviewApplication s now aid "approved").2.applications =
      updateFirst (fun x => x.id == aid)
        (fun x => { x with status := .approved }) s.applications ∧
    ((∃ p, s.players.find? (fun q => q.name == a.nickname) = some p ∧
        a.totalWin ≤ p.totalWin ∧
        (reviewApplication s now aid "approved").2.players = s.players ∧
        (reviewApplication s now aid "approved").2.nextId = s.nextId) ∨
     (∃ p l1 l2, s.players.find? (fun q => q.name == a.nickname) = some p ∧
        p.totalWin < a.totalWin ∧ s.players = l1 ++ p :: l2 ∧
        (∀ x ∈ l1, (x.name == a.nickname) = false) ∧
        (reviewApplication s now aid "approved").2.players =
          l1 ++ { p with totalWin := a.totalWin } :: l2 ∧
        (reviewApplication s now aid "approved").2.nextId = s.nextId) ∨
     (s.players.find? (fun q => q.name == a.nickname) = none ∧
        (reviewApplication s now aid "approved").2.players =
          s.players ++ [promotedPlayer s now a] ∧
        (reviewApplication s now aid "approved").2.nextId = s.nextId + 1)) := by
  have hd : AppStatus.ofString? "approved" = some AppStatus.approved := rfl
  cases hp : s.players.find? (fun q => q.name == a.nickname) with
  | none =>
    simp only [reviewApplication, hd, hfind, hp, if_true, eq_self_iff_true]
    refine ⟨by trivial, by trivial, Or.inr (Or.inr ⟨by trivial, by rfl, by trivial⟩)⟩
  | some p =>
    simp only [reviewApplication, hd, hfind, hp, if_true, eq_self_iff_true]
    by_cases hgt : a.totalWin > p.totalWin
    · rw [if_pos hgt]
      obtain ⟨l1, l2, hl, h1, hpa⟩ :=
        find?_eq_some_decomp (fun q => q.name == a.nickname) s.players p hp
      refine ⟨by trivial, by trivial,
        Or.inr (Or.inl ⟨p, l1, l2, by trivial, hgt, hl, h1, ?_, by trivial⟩)⟩
      rw [hl]
      exact updateFirst_append _ _ l1 l2 p h1 hpa
    · rw [if_neg hgt]
      exact ⟨by trivial, by trivial,
        Or.inl ⟨p, by trivial, not_lt.mp hgt, by trivial, by trivial⟩⟩

/-! ### Fixtures for witnesses and counterexamples -/

/-- A pending application used by concrete instances. -/
def demoApp1 : Application :=
  { id := 1, name := "Alice", email := "a@x.com", phoneNumber := "555",
    nickname := "AceA", accountName := "acc1", totalWin := 1000, proofUrl := "",
    status := .pending, createdAt := 0 }

/-- A store holding only `demoApp1`. -/
def demoStore1 : Store :=
  { players := [], applications := [demoApp1], nextId := 0 }

/-- An empty store. -/
def emptyStore : Store :=
  { players := [], applications := [], nextId := 0 }

/-! ### Claim theorems -/

/-- C1: approving an application with nickname N and claimed amount W
reconciles the player store: a player found under N with total T keeps
max(T, W) as its total (written only when W exceeds T, otherwise the
player list is untouched); with no player under N, a new player is
created carrying N, W and the deterministic default avatar; in either
case a player named N with total at least W exists afterwards. -/
theorem approval_reconciles_player_store (s : Store) (now aid : Nat)
    (a : Application)
    (hfind : s.applications.find? (fun x => x.id == aid) = some a) :
    (reviewApplication s now aid "approved").1 = 200 ∧
    (∀ p, s.players.find? (fun q => q.name == a.nickname) = some p →
      (reviewApplication s now aid "approved").2.players.find?
          (fun q => q.name == a.nickname)
        = some { p with totalWin := max p.totalWin a.totalWin } ∧
      (a.totalWin ≤ p.totalWin →
        (reviewApplication s now aid "approved").2.players = s.players)) ∧
    (s.players.find? (fun q => q.name == a.nickname) = none →
      (reviewApplication s now aid "approved").2.players =
        s.players ++ [promotedPlayer s now a]) ∧
    (∃ q ∈ (reviewApplication s now aid "approved").2.players,
      q.name = a.nickname ∧ a.totalWin ≤ q.totalWin) := by
  obtain ⟨h200, -, hcases⟩ := review_approved_cases s now aid a hfind
  refine ⟨h200, ?_, ?_, ?_⟩
  · intro p hfp
    rcases hcases with ⟨p0, hfp0, hle, hunch, -⟩ |
      ⟨p0, l1, l2, hfp0, hlt, hl, h1, hupd, -⟩ | ⟨hnone, -, -⟩
    · rw [hfp0] at hfp
      have h : p0 = p := by injection hfp
      rw [← h]
      refine ⟨?_, fun _ => hunch⟩
      rw [hunch, hfp0, max_eq_left hle]
    · rw [hfp0] at hfp
      have h : p0 = p := by injection hfp
      rw [← h]
      have hpa0 := List.find?_some hfp0
      have hpa : (fun q : Player => q.name == a.nickname)
          ({ p0 with totalWin := a.totalWin }) = true := hpa0
      refine ⟨?_, fun hle => absurd hlt (not_lt.mpr hle)⟩
      rw [hupd, find?_append_left_none _ _ h1,
        @List.find?_cons_of_pos Player (fun x => x.name == a.nickname)
          ({ p0 with totalWin := a.totalWin }) l2 hpa,
        max_eq_right (le_of_lt hlt)]
    · rw [hnone] at hfp; cases hfp
  · intro hnone
    rcases hcases with ⟨p0, hfp0, -, -, -⟩ |
      ⟨p0, l1, l2, hfp0, -, -, -, -, -⟩ | ⟨-, happ, -⟩
    · rw [hnone] at hfp0; cases hfp0
    · rw [hnone] at hfp0; cases hfp0
    · exact happ
  · rcases hcases with ⟨p0, hfp0, hle, hunch, -⟩ |
      ⟨p0, l1, l2, hfp0, hlt, hl, h1, hupd, -⟩ | ⟨-, happ, -⟩
    · refine ⟨p0, ?_, ?_, hle⟩
      · rw [hunch]; exact List.mem_of_find?_eq_some hfp0
      · simpa using List.find?_some hfp0
    · refine ⟨{ p0 with totalWin := a.totalWin }, ?_, ?_, le_refl _⟩
      · rw [hupd]; exact List.mem_append_right _ (List.mem_cons_self _ _)
      · simpa using List.find?_some hfp0
    · refine ⟨promotedPlayer s now a, ?_, rfl, le_refl _⟩
      rw [happ]; exact List.mem_append_right _ (List.mem_cons_self _ _)

/-- Witness for C1: approving the concrete pending application leaves a
player carrying its nickname and at least its claimed amount. -/
theorem approval_reconciles_player_store_witness :
    ∃ q ∈ (reviewApplication demoStore1 3 1 "approved").2.players,
      q.name = demoApp1.nickname ∧ demoApp1.totalWin ≤ q.totalWin :=
  (approval_reconciles_player_store demoStore1 3 1 demoApp1 (by decide)).2.2.2

/-- C4: approving the same application twice in a row is idempotent on
the whole store: the second approval returns 200 and changes nothing,
so it neither lowers the matched player's total nor duplicates the
player. -/
theorem reapproval_leaves_store_unchanged (s : Store) (now now2 aid : Nat)
    (a : Application)
    (hfind : s.applications.find? (fun x => x.id == aid) = some a) :
    reviewApplication (reviewApplication s now aid "approved").2 now2 aid "approved"
      = (200, (reviewApplication s now aid "approved").2) := by
  obtain ⟨-, F_apps, hcases⟩ := review_approved_cases s now aid a hfind
  have hpa0 := List.find?_some hfind
  have hpa : (fun x : Application => x.id == aid)
      ({ a with status := AppStatus.approved }) = true := hpa0
  have F_find1 : (reviewApplication s now aid "approved").2.applications.find?
      (fun x => x.id == aid) = some ({ a with status := AppStatus.approved }) := by
    rw [F_apps]
    exact find?_updateFirst (fun x => x.id == aid)
      (fun x => { x with status := AppStatus.approved }) s.applications a hfind hpa
  have F_self : updateFirst (fun x => x.id == aid)
      (fun x => { x with status := AppStatus.approved })
      (reviewApplication s now aid "approved").2.applications
      = (reviewApplication s now aid "approved").2.applications :=
    updateFirst_eq_self _ _ _ _ F_find1 rfl
  have F_players : ∃ q, (reviewApplication s now aid "approved").2.players.find?
      (fun x => x.name == a.nickname) = some q ∧ a.totalWin ≤ q.totalWin := by
    rcases hcases with ⟨p0, hfp0, hle, hunch, -⟩ |
      ⟨p0, l1, l2, hfp0, hlt, hl, h1, hupd, -⟩ | ⟨hnone, happ, -⟩
    · exact ⟨p0, by rw [hunch]; exact hfp0, hle⟩
    · refine ⟨{ p0 with totalWin := a.totalWin }, ?_, le_refl _⟩
      have hqa0 := List.find?_some hfp0
      have hqa : (fun x : Player => x.name == a.nickname)
          ({ p0 with totalWin := a.totalWin }) = true := hqa0
      rw [hupd, find?_append_left_none _ _ h1]
      exact @List.find?_cons_of_pos Player (fun x => x.name == a.nickname)
        ({ p0 with totalWin := a.totalWin }) l2 hqa
    · refine ⟨promotedPlayer s now a, ?_, le_refl _⟩
      have hfail : ∀ x ∈ s.players,
          (fun x : Player => x.name == a.nickname) x = false := by
        intro x hx
        have hne := List.find?_eq_none.mp hnone x hx
        simpa using hne
      have hself : (fun x : Player => x.name == a.nickname)
          (promotedPlayer s now a) = true := by
        simp [promotedPlayer]
      rw [happ, find?_append_left_none _ _ hfail]
      exact @List.find?_cons_of_pos Player (fun x => x.name == a.nickname)
        (promotedPlayer s now a) [] hself
  obtain ⟨q, hq, hqle⟩ := F_players
  have hd : AppStatus.ofString? "approved" = some AppStatus.approved := rfl
  set s1 : Store := (reviewApplication s now aid "approved").2 with hs1
  simp only [reviewApplication, hd, F_find1, F_self, hq, if_true, eq_self_iff_true]
  rw [if_neg (not_lt.mpr hqle)]

/-- Witness for C4: re-approving the concrete application returns 200
and the very same store. -/
theorem reapproval_leaves_store_unchanged_witness :
    reviewApplication (reviewApplication demoStore1 3 1 "approved").2 4 1 "approved"
      = (200, (reviewApplication demoStore1 3 1 "approved").2) :=
  reapproval_leaves_store_unchanged demoStore1 3 4 1 demoApp1 (by decide)

/-- The concrete application of `demoStore1`, already approved. -/
def approvedApp : Application := { demoApp1 with status := .approved }

/-- A store holding one already-approved application. -/
def approvedStore : Store :=
  { players := [], applications := [approvedApp], nextId := 0 }

/-- Shape of a review run with a valid decision on a present
application: it always answers 200 and always writes the decision onto
the matched application, whatever the prior status. -/
theorem review_valid_shape (s : Store) (now aid : Nat) (d : String)
    (st : AppStatus) (a : Application)
    (hd : AppStatus.ofString? d = some st)
    (hfind : s.applications.find? (fun x => x.id == aid) = some a) :
    ∃ ps nid, reviewApplication s now aid d =
      (200, { players := ps,
              applications := updateFirst (fun x => x.id == aid)
                (fun x => { x with status := st }) s.applications,
              nextId := nid }) := by
  simp only [reviewApplication, hd, hfind]
  by_cases hap : st = AppStatus.approved
  · rw [if_pos hap]
    cases hp : s.players.find? (fun p => p.name == a.nickname) with
    | none => exact ⟨_, _, rfl⟩
    | some p =>
      dsimp only
      by_cases hgt : a.totalWin > p.totalWin
      · rw [if_pos hgt]; exact ⟨_, _, rfl⟩
      · rw [if_neg hgt]; exact ⟨_, _, rfl⟩
  · rw [if_neg hap]; exact ⟨_, _, rfl⟩

/-- Counterexample to C2: reviewing an already-approved application is
not rejected; it answers 200 and overwrites the terminal status. -/
theorem review_overwrites_terminal_status_cex :
    (reviewApplication approvedStore 0 1 "rejected").1 = 200 ∧
    (reviewApplication approvedStore 0 1 "rejected").2.applications =
      [{ approvedApp with status := .rejected }] := by decide

/-- C2 amended: the review operation enforces no transition guard at
all: on any present application and any decision among the three known
status strings it answers 200 and overwrites the status with the
decision, whatever the current status. -/
theorem review_status_unguarded (s : Store) (now aid : Nat) (d : String)
    (st : AppStatus) (a : Application)
    (hd : AppStatus.ofString? d = some st)
    (hfind : s.applications.find? (fun x => x.id == aid) = some a) :
    (reviewApplication s now aid d).1 = 200 ∧
    (reviewApplication s now aid d).2.applications.find? (fun x => x.id == aid)
      = some { a with status := st } := by
  obtain ⟨ps, nid, heq⟩ := review_valid_shape s now aid d st a hd hfind
  have hpa0 := List.find?_some hfind
  have hpa : (fun x : Application => x.id == aid) ({ a with status := st })
      = true := hpa0
  rw [heq]
  exact ⟨rfl, find?_updateFirst (fun x => x.id == aid)
    (fun x => { x with status := st }) s.applications a hfind hpa⟩

/-- Witness for the amended C2: rejecting an already-approved concrete
application answers 200 and stores the rejected status. -/
theorem review_status_unguarded_witness :
    (reviewApplication approvedStore 0 1 "rejected").1 = 200 ∧
    (reviewApplication approvedStore 0 1 "rejected").2.applications.find?
        (fun x => x.id == 1) = some { approvedApp with status := .rejected } :=
  review_status_unguarded approvedStore 0 1 "rejected" AppStatus.rejected
    approvedApp (by decide) (by decide)

/-- Counterexample to C3: the decision value pending is neither
approved nor rejected, yet the operation answers 200 and performs a
write (the stored application changes). -/
theorem review_accepts_pending_cex :
    (reviewApplication approvedStore 0 1 "pending").1 = 200 ∧
    (reviewApplication approvedStore 0 1 "pending").2 ≠ approvedStore := by
  decide

/-- C3 amended: a decision outside all three known status strings
(pending included) fails with 400 and writes nothing; pending itself is
accepted and written back. -/
theorem review_unknown_decision_rejected (s : Store) (now aid : Nat) (d : String)
    (hd : d ∉ (["pending", "approved", "rejected"] : List String)) :
    reviewApplication s now aid d = (400, s) := by
  have hnone : AppStatus.ofString? d = none := by
    unfold AppStatus.ofString?
    split <;> simp_all
  simp only [reviewApplication, hnone]

/-- Witness for the amended C3: an unknown decision string leaves the
store untouched with a 400 answer. -/
theorem review_unknown_decision_rejected_witness :
    reviewApplication approvedStore 0 1 "bogus" = (400, approvedStore) :=
  review_unknown_decision_rejected approvedStore 0 1 "bogus" (by decide)

/-- C5: one review call writes at most the targeted application and at
most the player carrying that application's nickname: the application
list keeps its length, applications with another id keep their slot,
players with another name keep their slot, at most one player is
appended, a rejected decision leaves the player collection and the id
counter untouched, and a miss on the application id changes nothing. -/
theorem review_frame (s : Store) (now aid : Nat) (d : String) :
    (reviewApplication s now aid d).2.applications.length =
      s.applications.length ∧
    (∀ (i : Nat) (x : Application), s.applications[i]? = some x → x.id ≠ aid →
      (reviewApplication s now aid d).2.applications[i]? = some x) ∧
    (∀ a, s.applications.find? (fun y => y.id == aid) = some a →
      (∀ (i : Nat) (x : Player), s.players[i]? = some x → x.name ≠ a.nickname →
        (reviewApplication s now aid d).2.players[i]? = some x) ∧
      (reviewApplication s now aid d).2.players.length ≤ s.players.length + 1) ∧
    (d = "rejected" → (reviewApplication s now aid d).2.players = s.players ∧
      (reviewApplication s now aid d).2.nextId = s.nextId) ∧
    (s.applications.find? (fun y => y.id == aid) = none →
      (reviewApplication s now aid d).2 = s) := by
  cases hd : AppStatus.ofString? d with
  | none =>
    simp only [reviewApplication, hd]
    refine ⟨by trivial, ?_, ?_, ?_, ?_⟩
    · intro i x hx _; exact hx
    · intro a _
      exact ⟨fun i x hx _ => hx, Nat.le_succ _⟩
    · intro _
      constructor <;> trivial
    · intro _; trivial
  | some st =>
    cases hfind : s.applications.find? (fun y => y.id == aid) with
    | none =>
      simp only [reviewApplication, hd, hfind]
      refine ⟨by trivial, ?_, ?_, ?_, ?_⟩
      · intro i x hx _; exact hx
      · intro a ha; exact Option.noConfusion ha
      · intro _
        constructor <;> trivial
      · intro _; trivial
    | some a =>
      have hrej : d = "rejected" → st = AppStatus.rejected := by
        intro hdr
        rw [hdr] at hd
        injection hd with h2
        exact h2.symm
      have happfr : ∀ (i : Nat) (x : Application),
          s.applications[i]? = some x → x.id ≠ aid →
          (updateFirst (fun y => y.id == aid)
            (fun y => { y with status := st }) s.applications)[i]? = some x := by
        intro i x hx hne
        exact updateFirst_getElem?_of_neg _ _ _ i x hx (beq_eq_false_iff_ne.mpr hne)
      have happlen : (updateFirst (fun y => y.id == aid)
          (fun y => { y with status := st }) s.applications).length =
          s.applications.length := length_updateFirst _ _ _
      simp only [reviewApplication, hd, hfind]
      by_cases hap : st = AppStatus.approved
      · rw [if_pos hap]
        have hnotrej : ¬ d = "rejected" := by
          intro hdr
          rw [hrej hdr] at hap
          cases hap
        cases hp : s.players.find? (fun p => p.name == a.nickname) with
        | none =>
          refine ⟨happlen, happfr, ?_, fun hdr => absurd hdr hnotrej, ?_⟩
          · intro a2 ha2
            injection ha2 with h2
            subst h2
            refine ⟨?_, ?_⟩
            · intro i x hx _
              exact getElem?_append_of_some _ _ i x hx
            · simp
          · intro h2; exact Option.noConfusion h2
        | some p =>
          dsimp only
          by_cases hgt : a.totalWin > p.totalWin
          · rw [if_pos hgt]
            refine ⟨happlen, happfr, ?_, fun hdr => absurd hdr hnotrej, ?_⟩
            · intro a2 ha2
              injection ha2 with h2
              subst h2
              refine ⟨?_, ?_⟩
              · intro i x hx hne
                exact updateFirst_getElem?_of_neg _ _ _ i x hx
                  (beq_eq_false_iff_ne.mpr hne)
              · rw [length_updateFirst]
                exact Nat.le_succ _
            · intro h2; exact Option.noConfusion h2
          · rw [if_neg hgt]
            refine ⟨happlen, happfr, ?_, fun hdr => absurd hdr hnotrej, ?_⟩
            · intro a2 ha2
              exact ⟨fun i x hx _ => hx, Nat.le_succ _⟩
            · intro h2; exact Option.noConfusion h2
      · rw [if_neg hap]
        refine ⟨happlen, happfr, ?_, ?_, ?_⟩
        · intro a2 ha2
          exact ⟨fun i x hx _ => hx, Nat.le_succ _⟩
        · intro _
          constructor <;> trivial
        · intro h2; exact Option.noConfusion h2

/-- Witness for C5: rejecting the concrete pending application leaves
the player collection untouched. -/
theorem review_frame_witness :
    (reviewApplication demoStore1 0 1 "rejected").2.players =
      demoStore1.players :=
  ((review_frame demoStore1 0 1 "rejected").2.2.2.1 rfl).1

/-- A fully truthy application submission body. -/
def validBody : ApplicationBody :=
  { name := some "Alice", email := some "a@x.com", phoneNumber := some "555",
    nickname := some "AceA", accountName := some "acc1", totalWin := some 1000,
    proofUrl := none }

/-- C6: without a valid bearer token the five gated endpoints answer
401 and leave the store untouched, while the public read endpoints
answer 200 and a well-formed application submission (truthy fields and
a document passing the schema validation) answers 201 without
consulting any token. -/
theorem auth_gate (verify : String → Option String) (h : Option String)
    (s : Store) (nm : String) (w : Int) (now pid aid cutoff : Nat)
    (lim : Option Nat) (q : String) (d : String) (b : ApplicationBody)
    (hauth : authenticate verify h = none)
    (hb : requiredPresent b = true)
    (hbv : applicationSchemaValid (mkSubmittedApplication b s.nextId now)
      = true) :
    handlePostPlayers verify h nm w now s = (401, s) ∧
    handlePatchPlayer verify h pid w s = (401, s) ∧
    handleDeletePlayer verify h pid s = (401, s) ∧
    handleGetApplications verify h s = (401, s) ∧
    handlePatchApplication verify h now aid d s = (401, s) ∧
    (handleGetPlayers h s).1 = 200 ∧
    (handleGetPlayersWeekly h cutoff s).1 = 200 ∧
    (handleGetPlayersMonthly h cutoff s).1 = 200 ∧
    (handleGetPlayersTop h lim s).1 = 200 ∧
    (handleSearchPlayers h q s).1 = 200 ∧
    (handlePostApplications h b now s).1 = 201 := by
  refine ⟨?_, ?_, ?_, ?_, ?_, rfl, rfl, rfl, rfl, rfl, ?_⟩
  · simp [handlePostPlayers, hauth]
  · simp [handlePatchPlayer, hauth]
  · simp [handleDeletePlayer, hauth]
  · simp [handleGetApplications, hauth]
  · simp [handlePatchApplication, hauth]
  · simp [handlePostApplications, hb, hbv]

/-- Witness for C6: with no Authorization header the gated player
creation answers 401 on the empty store and changes nothing. -/
theorem auth_gate_witness :
    handlePostPlayers (fun _ => none) none "X" 1 0 emptyStore =
      (401, emptyStore) :=
  (auth_gate (fun _ => none) none emptyStore "X" 1 0 0 0 0 none "q" "approved"
    validBody rfl (by decide) (by decide)).1

/-- C7: the unauthenticated test route answers 201 on any store,
discards every stored player and installs the five fixed samples. -/
theorem sample_route_replaces_players (s : Store) (now : Nat) :
    handleCreateSamplePlayers none now s =
      (201, { s with
        players :=
          [mkSamplePlayer s.nextId now ("Champion123", 50000000),
           mkSamplePlayer (s.nextId + 1) now ("LuckyWinner", 35000000),
           mkSamplePlayer (s.nextId + 2) now ("GoldHunter", 25000000),
           mkSamplePlayer (s.nextId + 3) now ("FortuneMaster", 20000000),
           mkSamplePlayer (s.nextId + 4) now ("LuckyDragon", 15000000)],
        nextId := s.nextId + 5 }) := rfl

/-- A submission body whose only falsy field is the zero claimed amount. -/
def zeroWinBody : ApplicationBody :=
  { name := some "Alice", email := some "a@x.com", phoneNumber := some "555",
    nickname := some "AceA", accountName := some "acc1", totalWin := some 0,
    proofUrl := none }

/-- Counterexample to C8: every required field is present and the
claimed amount is the valid value zero, yet the submission is rejected
with 400 and nothing is stored. -/
theorem post_zero_claim_rejected_cex :
    zeroWinBody.name.isSome = true ∧ zeroWinBody.email.isSome = true ∧
    zeroWinBody.phoneNumber.isSome = true ∧
    zeroWinBody.nickname.isSome = true ∧
    zeroWinBody.accountName.isSome = true ∧ zeroWinBody.totalWin = some 0 ∧
    handlePostApplications none zeroWinBody 1 emptyStore =
      (400, emptyStore) := by
  decide

/-- C8 amended: the submission endpoint first tests JavaScript
truthiness, not presence — so the valid claimed amount zero is rejected
with 400 — and then the schema validation runs at save time, rejecting
with 400 a negative amount or a required string that trims to empty;
the application is stored with 201 exactly when every required field is
truthy and the trimmed document passes the schema validation. -/
theorem post_applications_truthiness (h : Option String) (b : ApplicationBody)
    (now : Nat) (s : Store) :
    (requiredPresent b = true →
      applicationSchemaValid (mkSubmittedApplication b s.nextId now) = true →
      handlePostApplications h b now s =
        (201, { s with
          applications := s.applications ++ [mkSubmittedApplication b s.nextId now],
          nextId := s.nextId + 1 })) ∧
    (requiredPresent b = false →
      handlePostApplications h b now s = (400, s)) ∧
    (applicationSchemaValid (mkSubmittedApplication b s.nextId now) = false →
      handlePostApplications h b now s = (400, s)) := by
  refine ⟨?_, ?_, ?_⟩
  · intro hb hv
    simp [handlePostApplications, hb, hv]
  · intro hb
    simp [handlePostApplications, hb]
  · intro hv
    by_cases hb : requiredPresent b
    · simp [handlePostApplications, hb, hv]
    · simp [handlePostApplications, hb]

/-- Witness for the amended C8: the fully truthy and schema-valid body
is stored with 201. -/
theorem post_applications_truthiness_witness :
    handlePostApplications none validBody 1 emptyStore =
      (201, { emptyStore with
        applications := [mkSubmittedApplication validBody 0 1],
        nextId := 1 }) :=
  (post_applications_truthiness none validBody 1 emptyStore).1
    (by decide) (by decide)

/-- A one-player store whose player name holds no dot. -/
def dotStore : Store :=
  { players :=
      [{ id := 0, name := "ab", totalWin := 5, avatar := "", createdAt := 0 }],
    applications := [], nextId := 1 }

/-- Counterexample to C9: the single-dot query reaches the regex engine
as a wildcard and matches the name ab, though ab contains no literal
dot; the literal-substring reading returns nothing. -/
theorem search_regex_not_literal_cex :
    (handleSearchPlayers none "." dotStore).2 =
      [{ id := 0, name := "ab", totalWin := 5, avatar := "", createdAt := 0 }] ∧
    specLiteralSearch dotStore "." = [] := by
  decide

/-- C9 amended: the query is interpreted as a case-insensitive regular
expression, not as a literal; for queries built only from alphanumeric
characters (hence free of regex metacharacters) the result is exactly
the set of case-insensitive substring matches on the name, ordered by
totalWin descending. -/
theorem search_alphanum_query_is_substring (s : Store) (q : String)
    (hq : ∀ c ∈ q.toList, c.isAlphanum = true) :
    List.Perm (handleSearchPlayers none q s).2
      (s.players.filter (fun p => containsSubCI q.toList p.name.toList)) ∧
    List.Pairwise (fun x y => y.totalWin ≤ x.totalWin)
      (handleSearchPlayers none q s).2 := by
  have hfe : s.players.filter
        (fun p => matchAnywhere (parseTokens q.toList) p.name.toList) =
      s.players.filter (fun p => containsSubCI q.toList p.name.toList) := by
    apply List.filter_congr
    intro p _
    exact matchAnywhere_of_no_dot q.toList p.name.toList
      (fun c hc => alphanum_ne_dot c (hq c hc))
  constructor
  · have h1 : (handleSearchPlayers none q s).2 =
        sortByWinDesc
          (s.players.filter (fun p => containsSubCI q.toList p.name.toList)) := by
      simp only [handleSearchPlayers]
      rw [hfe]
    rw [h1]
    exact sortByWinDesc_perm _
  · exact pairwise_sortByWinDesc _

/-- Witness for the amended C9: a plain alphanumeric query returns the
substring matches of the concrete store. -/
theorem search_alphanum_query_is_substring_witness :
    List.Perm (handleSearchPlayers none "ab" dotStore).2
      (dotStore.players.filter
        (fun p => containsSubCI "ab".toList p.name.toList)) :=
  (search_alphanum_query_is_substring dotStore "ab" (by decide)).1

/-- A verifier accepting one fixed token, standing for `jwt.verify`. -/
def demoVerify : String → Option String :=
  fun t => if t = "tok" then some "admin" else none

/-- C10: the authenticated player-creation endpoint stores whatever
totalWin the request supplies with no validation: a negative amount is
persisted with 201, so the non-negativity of the data model is not
preserved by the authenticated interface. -/
theorem post_players_stores_negative :
    (handlePostPlayers demoVerify (some "Bearer tok") "Rogue" (-5) 3
        emptyStore).1 = 201 ∧
    ∃ p ∈ (handlePostPlayers demoVerify (some "Bearer tok") "Rogue" (-5) 3
        emptyStore).2.players, p.totalWin < 0 := by
  decide

end Leaderboard
